import Mathlib

/-!
Shallow embedding of `shifts_scheduling.py` and `config.py` from the
shift_scheduling repository, together with theorems checking the
specification's claims about input handling, variable bounds, constraint
construction, window-length assertions and solution decoding.

Timestamps are modelled as natural numbers counting whole hours from an
epoch, so a calendar date (a pandas business day) is the quotient by 24 and
the hour of day is the remainder.  Solver variable values are modelled as
rationals (the solver returns floating-point values; exact rational
arithmetic stands in for them, and Python's `round(x, p)` on floats is
modelled by rational rounding to p decimal places).
-/

namespace ShiftSched

/-! ### config.py -/

def MIN_STAFF_PER_HOUR : ℕ := 2

def MIN_REST_HOURS : ℕ := 4

def MIN_SHIFT_HOURS : ℕ := 9

def MAX_SHIFT_HOURS : ℕ := 12

def ROLE_OT_PROHIBITED : List String := ["Branch Manager"]

def MAX_DAYS_PER_WEEK : ℕ := 6

def MAX_SHIFTS_PER_DAY : ℕ := 1

def W1 : ℚ := 3 / 4

/-! ### Time grid

A timestamp is a natural number of whole hours since the epoch.  `busDay` is the
calendar date a slot belongs to (`demand_df['date_time'].dt.date`),
`busDayStart` the midnight timestamp of that date (`pd.to_datetime(bus_day)`),
`busEod` the last hourly slot of the date (`bus_day + pd.Timedelta(hours=23)`)
and `hourOf` the hour of day (`dt.hour`). -/

def busDay (t : ℕ) : ℕ := t / 24

def busDayStart (t : ℕ) : ℕ := t / 24 * 24

def busEod (t : ℕ) : ℕ := busDayStart t + 23

def hourOf (t : ℕ) : ℕ := t % 24

/-- A contiguous, strictly increasing hourly demand grid starting at `t0`
with `n` slots: the invariant required of `demand_df['date_time']`. -/
def hourlyGrid (t0 n : ℕ) : List ℕ := (List.range n).map (t0 + ·)

/-! ### List helpers standing in for Python built-ins -/

/-- Python `max(list)` on a nonempty list of timestamps (total, with
default 0 for the empty list the source never passes). -/
def listMaxD (l : List ℕ) : ℕ := l.foldl max 0

/-- Python `min(series)`: the minimum of a nonempty timestamp list. -/
def listMinD : List ℕ → ℕ
  | [] => 0
  | a :: l => l.foldl min a

/-- pandas `Series.unique()`: distinct values in order of first appearance. -/
def uniqueFirst (l : List ℕ) : List ℕ :=
  l.foldl (fun acc a => if a ∈ acc then acc else acc ++ [a]) []

/-- Python dict built by `set_index('date_time')['demand'].to_dict()`:
on duplicate keys the last value wins; lookups the source performs are
always on present keys (0 is returned for absent ones). -/
def dictOf (ks : List ℕ) (vs : List ℤ) (t : ℕ) : ℤ :=
  (ks.zip vs).foldl (fun acc kv => if kv.1 = t then kv.2 else acc) 0

/-- Model.get_subset_dts: the demand timestamps lying in `[min_dt, max_dt]`
(shifts_scheduling.py lines 374-387).  The defensive `assert` on the result
length is checked separately by `subsetAssertOk`. -/
def get_subset_dts (dts : List ℕ) (min_dt max_dt : ℕ) : List ℕ :=
  dts.filter fun t => decide (min_dt ≤ t) && decide (t ≤ max_dt)

/-- The defensive assertion of Model.get_subset_dts (line 386):
`assert len(subset_dts) <= max_length`. -/
def subsetAssertOk (dts : List ℕ) (min_dt max_dt : ℕ) (max_length : ℕ) : Bool :=
  decide ((get_subset_dts dts min_dt max_dt).length ≤ max_length)

/-! ### Data model -/

/-- One row of the staff table.  `staff_id` is kept as the string the
decoder prints (`str(self.staff_df.iloc[i]['staff_id'])`). -/
structure Staff where
  staff_id : String
  role : String
  hourly_wage : ℚ
  overtime_hourly_wage : ℚ
deriving DecidableEq

/-- The caller's demand DataFrame.  `date_time` and `demand` are the input
columns (timestamps already at hourly resolution); `bus_day` and `week` are
`none` until Model.__init__ adds them in place. -/
structure DemandDF where
  date_time : List ℕ
  demand : List ℤ
  bus_day : Option (List ℕ) := none
  week : Option (List ℕ) := none
deriving DecidableEq

/-- The in-place column additions Model.__init__ performs on the caller's
demand frame (shifts_scheduling.py lines 24-27):
`bus_day = date_time.dt.date` and
`week = (date_time - date_time.min()).dt.days // 7 + 1`. -/
def DemandDF.afterInit (df : DemandDF) : DemandDF :=
  { df with
    bus_day := some (df.date_time.map busDay)
    week := some (df.date_time.map fun t =>
      (t - listMinD df.date_time) / 24 / 7 + 1) }

/-- The state Model.__init__ leaves on `self` (lines 29-32): staff count,
the demand dict (keys in first-appearance order, last value wins), the raw
row timestamps, and the staff table. -/
structure ModelState where
  M : ℕ
  dfDts : List ℕ
  dts : List ℕ
  demand : ℕ → ℤ
  staff : List Staff

/-- Model.__init__ (lines 20-32): annotates the caller's demand frame in
place and records the model state.  The updated caller frame is returned
explicitly (the shallow embedding of the in-place mutation). -/
def modelInit (df : DemandDF) (staff : List Staff) : ModelState × DemandDF :=
  let df' := df.afterInit
  ({ M := staff.length
     dfDts := df'.date_time
     dts := uniqueFirst df'.date_time
     demand := dictOf df'.date_time df'.demand
     staff := staff }, df')

/-! ### Variable builder (Model.add_variables, lines 74-125) -/

/-- Identity of one declared decision variable. -/
inductive VarId where
  | xStart (i : ℕ) (dt : ℕ)
  | xWork (i : ℕ) (dt : ℕ)
  | xOt (i : ℕ) (dt : ℕ)
  | y1 (dt : ℕ)
  | y2 (dt : ℕ)
  | xDay (i : ℕ) (d : ℕ)
deriving DecidableEq

/-- A declared variable with the bounds it is created with (after the
conditional `SetBounds` calls). -/
structure VarDecl where
  id : VarId
  lb : ℚ
  ub : ℚ
deriving DecidableEq

/-- Upper bound of `x_start[i][dt]` (lines 86-89): 1, forced to 0 when
`pd.to_datetime(dt + 9h).date() > bus_day`, i.e. when the end instant of a
minimum-length shift falls on a later calendar date. -/
def xStartUb (dt : ℕ) : ℚ :=
  if busDay dt < busDay (dt + MIN_SHIFT_HOURS) then 0 else 1

/-- Upper bound of `x_ot[i][dt]` (lines 95-102): 1, forced to 0 when the
staff role is overtime-prohibited or `dt.hour < MIN_SHIFT_HOURS`. -/
def xOtUb (role : String) (dt : ℕ) : ℚ :=
  if role ∈ ROLE_OT_PROHIBITED ∨ hourOf dt < MIN_SHIFT_HOURS then 0 else 1

/-- Upper bound of `y2[dt]` (lines 114-119):
`max(0, demand[dt] - min(M, MIN_STAFF_PER_HOUR - 1))`. -/
def y2Ub (M : ℕ) (demand : ℕ → ℤ) (dt : ℕ) : ℚ :=
  ((max 0 (demand dt - min (M : ℤ) ((MIN_STAFF_PER_HOUR : ℤ) - 1)) : ℤ) : ℚ)

/-- The business days of the horizon, as midnight timestamps, in order of
first appearance: `demand_df['bus_day'].unique()` keyed through
`pd.to_datetime`. -/
def uniqueBusDays (dts : List ℕ) : List ℕ := uniqueFirst (dts.map busDayStart)

/-- Model.add_variables (lines 74-125): for every staff index and slot the
`x_start`, `x`, `x_ot` variables with their bounds; on the last staff index
additionally the per-slot slack variables `y1`, `y2`; and per staff one
`x_day` variable for every distinct business day — created unconditionally. -/
def addVariables (ms : ModelState) : List VarDecl :=
  (List.range ms.M).flatMap fun i =>
    (ms.dfDts.flatMap fun dt =>
      [⟨.xStart i dt, 0, xStartUb dt⟩,
       ⟨.xWork i dt, 0, 1⟩,
       ⟨.xOt i dt, 0, xOtUb ((ms.staff.getD i ⟨"", "", 0, 0⟩).role) dt⟩]
      ++ (if i = ms.M - 1 then
            [⟨.y1 dt, 0, 1⟩, ⟨.y2 dt, 0, y2Ub ms.M ms.demand dt⟩]
          else []))
    ++ (uniqueBusDays ms.dfDts).map fun d => ⟨.xDay i d, 0, 1⟩

/-- The `DataError` the specification's input contract names.  The source
contains no such class and no validation code; the `Except` wrapper below
records the asserted failure mode, which no code path produces. -/
inductive DataError where
  | dataError
deriving DecidableEq

/-- Construction followed by variable creation, the span in which the
specification claims malformed input is rejected (`Model.__init__` through
`Model.add_variables`).  The source performs no validation on this path, so
the result is always `Except.ok`. -/
def buildModel (df : DemandDF) (staff : List Staff) :
    Except DataError (ModelState × List VarDecl) :=
  let st := (modelInit df staff).1
  Except.ok (st, addVariables st)

/-! ### Constraint builder (Model.add_constraints, lines 127-263)

The windows below are the `get_subset_dts` calls made per staff index `i`
and slot `dt`; `busDayStart dt` is `pd.to_datetime(bus_day)` of the slot's
row and `busEod dt` is `bus_eod`. -/

/-- `past_dts` (lines 146-151): slots in
`[max(bus_day, dt - (MAX_SHIFT_HOURS-1)), dt]`. -/
def pastDts (dts : List ℕ) (dt : ℕ) : List ℕ :=
  get_subset_dts dts (max (busDayStart dt) (dt - (MAX_SHIFT_HOURS - 1))) dt

/-- `rest_dts` (lines 161-166): slots in
`[dt + 1, dt + MIN_SHIFT_HOURS + MIN_REST_HOURS - 1]`. -/
def restDts (dts : List ℕ) (dt : ℕ) : List ℕ :=
  get_subset_dts dts (dt + 1) (dt + (MIN_SHIFT_HOURS + MIN_REST_HOURS - 1))

/-- `shift_dts` (lines 174-178): slots in `[dt, dt + MIN_SHIFT_HOURS - 1]`. -/
def shiftDts (dts : List ℕ) (dt : ℕ) : List ℕ :=
  get_subset_dts dts dt (dt + (MIN_SHIFT_HOURS - 1))

/-- `potential_overtime_dts` (lines 186-191): slots in
`[max(shift_dts) + 1, min(bus_eod, max(shift_dts) + MAX - MIN + 1)]`. -/
def otDts (dts : List ℕ) (dt : ℕ) : List ℕ :=
  get_subset_dts dts (listMaxD (shiftDts dts dt) + 1)
    (min (busEod dt) (listMaxD (shiftDts dts dt) + (MAX_SHIFT_HOURS - MIN_SHIFT_HOURS + 1)))

/-- `additional_rest_dts` (lines 192-196): slots in
`[max(rest_dts) + 1, max(rest_dts) + MIN_REST_HOURS]`, or `[]` when
`rest_dts` is empty. -/
def addRestDts (dts : List ℕ) (dt : ℕ) : List ℕ :=
  if (restDts dts dt).length ≠ 0 then
    get_subset_dts dts (listMaxD (restDts dts dt) + 1)
      (listMaxD (restDts dts dt) + MIN_REST_HOURS)
  else []

/-- `other_starts` / `day_dts` (lines 220-223 and 232-235): all slots of the
business day, `[bus_day, bus_eod]`. -/
def dayDts (dts : List ℕ) (dt : ℕ) : List ℕ :=
  get_subset_dts dts (busDayStart dt) (busEod dt)

/-- Week index of a slot, as stored in `demand_df['week']`:
`(dt - min) // 24 // 7 + 1` with `min` the earliest timestamp. -/
def weekOf (dts : List ℕ) (dt : ℕ) : ℕ := (dt - listMinD dts) / 24 / 7 + 1

/-- `demand_df.loc[week == w]['bus_day'].unique()` (lines 255-257), as
midnight timestamps. -/
def weekDaysOf (dts : List ℕ) (w : ℕ) : List ℕ :=
  uniqueFirst ((dts.filter fun t => decide (weekOf dts t = w)).map busDayStart)

/-- One linear constraint added to the solver, identified by kind, staff
index and the slots the source names it after. -/
inductive Constr where
  | past (i : ℕ) (dt : ℕ)
  | rest (i : ℕ) (dt : ℕ)
  | minShift (i : ℕ) (dt : ℕ)
  | consecutive (i : ℕ) (dt o_dt : ℕ)
  | otFlag (i : ℕ) (dt o_dt : ℕ)
  | otRest (i : ℕ) (dt o_dt r_dt : ℕ)
  | maxPerDay (i : ℕ) (dt : ℕ)
  | dayLink (i : ℕ) (d : ℕ)
  | demandCover (dt : ℕ)
  | maxPerWeek (i : ℕ) (w : ℕ)
deriving DecidableEq

/-- The inner overtime loop (lines 198-217): for the o-th potential
overtime slot, the consecutiveness and overtime-flag constraints, plus the
additional-rest constraint when `additional_rest_dts` still has an o-th
element.  The two lists are consumed in parallel, mirroring the index
pairing `additional_rest_dts[o]`. -/
def otLoopConstrs (i : ℕ) (dt : ℕ) : List ℕ → List ℕ → List Constr
  | [], _ => []
  | o_dt :: os, [] =>
      [.consecutive i dt o_dt, .otFlag i dt o_dt] ++ otLoopConstrs i dt os []
  | o_dt :: os, r_dt :: rs =>
      [.consecutive i dt o_dt, .otFlag i dt o_dt, .otRest i dt o_dt r_dt]
      ++ otLoopConstrs i dt os rs

/-- The per-slot constraints added unconditionally for staff `i` at slot
`dt` (lines 144-228): past-link, rest, minimum shift, the overtime loop,
and the one-shift-per-day cap. -/
def slotConstrsCore (dts : List ℕ) (i : ℕ) (dt : ℕ) : List Constr :=
  [.past i dt, .rest i dt, .minShift i dt]
  ++ otLoopConstrs i dt (otDts dts dt) (addRestDts dts dt)
  ++ [.maxPerDay i dt]

/-- The slot loop of add_constraints for one staff index, carrying
`last_seen_date` (lines 137-252): the core per-slot constraints, then the
day-link constraint on the first slot of each new business day when the
horizon has more distinct business days than `MAX_DAYS_PER_WEEK`, then the
demand-coverage constraint on the last staff index. -/
def slotLoop (dts : List ℕ) (M i : ℕ) (manyDays : Bool) :
    List ℕ → Option ℕ → List Constr
  | [], _ => []
  | dt :: rest, lastSeen =>
      let bd := busDayStart dt
      let newDay := manyDays && decide (lastSeen ≠ some bd)
      slotConstrsCore dts i dt
      ++ (if newDay then [Constr.dayLink i bd] else [])
      ++ (if i = M - 1 then [Constr.demandCover dt] else [])
      ++ slotLoop dts M i manyDays rest (if newDay then some bd else lastSeen)

/-- The weekly pass for one staff index (lines 254-263): one constraint per
week whose distinct business days exceed `MAX_DAYS_PER_WEEK`. -/
def weeklyConstrs (dts : List ℕ) (i : ℕ) : List Constr :=
  (uniqueFirst (dts.map (weekOf dts))).flatMap fun w =>
    if (weekDaysOf dts w).length > MAX_DAYS_PER_WEEK then [Constr.maxPerWeek i w]
    else []

/-- Model.add_constraints (lines 127-263): for each staff index the slot
loop followed by the weekly pass. -/
def addConstraints (dts : List ℕ) (M : ℕ) : List Constr :=
  let manyDays := decide ((uniqueBusDays dts).length > MAX_DAYS_PER_WEEK)
  (List.range M).flatMap fun i =>
    slotLoop dts M i manyDays dts none ++ weeklyConstrs dts i

/-- The inequality each added constraint imposes on a variable assignment,
read off the corresponding `solver.Add` call. -/
def Constr.holds (dts : List ℕ) (M : ℕ) (demand : ℕ → ℤ)
    (xs x xot xday : ℕ → ℕ → ℚ) (y1 y2 : ℕ → ℚ) : Constr → Prop
  | .past i dt => x i dt ≤ ((pastDts dts dt).map (xs i)).sum
  | .rest i dt =>
      ((restDts dts dt).map (xs i)).sum ≤
        ((restDts dts dt).length : ℚ) * (1 - xs i dt)
  | .minShift i dt =>
      ((shiftDts dts dt).map (x i)).sum ≥ ((shiftDts dts dt).length : ℚ) * xs i dt
  | .consecutive i dt o_dt => 1 + x i (o_dt - 1) ≥ xs i dt + x i o_dt
  | .otFlag i dt o_dt => 1 + xot i o_dt ≥ xs i dt + x i o_dt
  | .otRest i _ o_dt r_dt => 1 - xot i o_dt ≥ xs i r_dt
  | .maxPerDay i dt =>
      ((dayDts dts dt).map (xs i)).sum ≤ (MAX_SHIFTS_PER_DAY : ℚ)
  | .dayLink i d =>
      ((dayDts dts d).map (x i)).sum ≤ ((dayDts dts d).length : ℚ) * xday i d
  | .demandCover dt =>
      ((List.range M).map fun s => x s dt).sum + y1 dt + y2 dt ≥ ((demand dt : ℤ) : ℚ)
  | .maxPerWeek i w =>
      ((weekDaysOf dts w).map (xday i)).sum ≤ (MAX_DAYS_PER_WEEK : ℚ)

instance (dts : List ℕ) (M : ℕ) (demand : ℕ → ℤ)
    (xs x xot xday : ℕ → ℕ → ℚ) (y1 y2 : ℕ → ℚ) (c : Constr) :
    Decidable (c.holds dts M demand xs x xot xday y1 y2) := by
  cases c <;> unfold Constr.holds <;> infer_instance

/-! ### Solution decoder and metrics (Model.solve, lines 265-372) -/

/-- The status the solver adapter returns (the spec's
{Optimal, Feasible, Infeasible, Error}). -/
inductive SolveStatus where
  | optimal
  | feasible
  | infeasible
  | solverError
deriving DecidableEq

/-- One decoded shift record written to `shift.csv` and the metrics. -/
structure ShiftRow where
  staff_id : String
  start_date_time : ℕ
  end_date_time : ℕ
deriving DecidableEq

/-- The metrics dict Model.solve returns (lines 356-365), minus the output
file paths. -/
structure SolveResult where
  shifts : List ShiftRow
  WDC : ℚ
  WOR : ℚ
  total_cost : ℚ
  solver_status : String
deriving DecidableEq

/-- Python `round(q, p)` on the rational stand-in for a float: round to
`p` decimal places, computed as `floor(q * 10^p + 1/2) / 10^p` (float
ties-to-even behaviour differs only at exact ties, which no input used
here produces). -/
def pyRound (p : ℕ) (q : ℚ) : ℚ :=
  let s : ℚ := q * (10 : ℚ) ^ p + 1 / 2
  ((Int.fdiv s.num (s.den : ℤ) : ℤ) : ℚ) / (10 : ℚ) ^ p

/-- The decoded end of a shift opened at `dt` (lines 327-334): one hour
past the latest slot of `[dt, dt + MAX_SHIFT_HOURS - 1]` whose work value
equals 1 — the maximum worked slot of the window, contiguous or not. -/
def decodeEnd (dts : List ℕ) (xw : ℕ → ℚ) (dt : ℕ) : ℕ :=
  listMaxD ((get_subset_dts dts dt (dt + (MAX_SHIFT_HOURS - 1))).filter
    fun q => decide (xw q = 1)) + 1

/-- The shift rows accumulated in the solved branch (lines 316-341): for
each staff index, one row per slot whose start value is nonzero. -/
def shiftRows (ms : ModelState) (xs x : ℕ → ℕ → ℚ) : List ShiftRow :=
  (List.range ms.M).flatMap fun i =>
    (ms.dts.filter fun dt => decide (xs i dt ≠ 0)).map fun dt =>
      { staff_id := (ms.staff.getD i ⟨"", "", 0, 0⟩).staff_id
        start_date_time := dt
        end_date_time := decodeEnd ms.dts (x i) dt }

/-- Final value of the `demand_coverage` defaultdict entry for slot `dt`
(lines 343-344): the staff loop adds `x/demand` when the slot's demand is
nonzero and 0 otherwise — the key is touched either way. -/
def coverageVal (ms : ModelState) (x : ℕ → ℕ → ℚ) (dt : ℕ) : ℚ :=
  ((List.range ms.M).map fun i =>
    if ms.demand dt ≠ 0 then x i dt / ((ms.demand dt : ℤ) : ℚ) else 0).sum

/-- Model.solve after the solver call (lines 304-372): decodes shift rows
and computes the metrics.  `demand_coverage` keys exist exactly when the
solved branch ran with at least one staff member, because the defaultdict
entry is created for every slot the loop touches; the status string
distinguishes only optimal from everything else. -/
def solveDecode (ms : ModelState) (status : SolveStatus)
    (xs x xot : ℕ → ℕ → ℚ) : SolveResult :=
  let ok := status = SolveStatus.optimal ∨ status = SolveStatus.feasible
  let rows := if ok then shiftRows ms xs x else []
  let covKeys := if ok ∧ 0 < ms.M then ms.dts else []
  let totalCost : ℚ :=
    if ok then
      ((List.range ms.M).map fun i =>
        (ms.dts.map fun dt =>
          max ((ms.staff.getD i ⟨"", "", 0, 0⟩).hourly_wage * x i dt)
              ((ms.staff.getD i ⟨"", "", 0, 0⟩).overtime_hourly_wage * xot i dt)).sum).sum
    else 0
  let totalSh : ℚ := ((List.range ms.M).map fun i => (ms.dts.map (x i)).sum).sum
  let otSum : ℚ := ((List.range ms.M).map fun i => (ms.dts.map (xot i)).sum).sum
  { shifts := rows
    WDC := if covKeys ≠ [] then
        pyRound 4 ((covKeys.map (coverageVal ms x)).sum / (covKeys.length : ℚ))
      else 0
    WOR := if totalSh ≠ 0 then pyRound 4 (otSum / totalSh) else 0
    total_cost := pyRound 2 totalCost
    solver_status := if status = SolveStatus.optimal then "optimal" else "feasible" }

/-! ### Helper lemmas -/

lemma uniqueFirst_step_mem (acc : List ℕ) (a x : ℕ) :
    x ∈ (if a ∈ acc then acc else acc ++ [a]) ↔ x ∈ acc ∨ x = a := by
  split
  · next h => constructor
              · exact fun hx => Or.inl hx
              · rintro (hx | rfl)
                · exact hx
                · exact h
  · simp [List.mem_append]

lemma uniqueFirst_aux_mem (l : List ℕ) :
    ∀ acc x, (x ∈ l.foldl (fun acc a => if a ∈ acc then acc else acc ++ [a]) acc)
      ↔ x ∈ acc ∨ x ∈ l := by
  induction l with
  | nil => simp
  | cons a l ih =>
      intro acc x
      rw [List.foldl_cons, ih, uniqueFirst_step_mem]
      simp [or_assoc]

lemma mem_uniqueFirst {l : List ℕ} {x : ℕ} : x ∈ uniqueFirst l ↔ x ∈ l := by
  rw [uniqueFirst, uniqueFirst_aux_mem]
  simp

lemma uniqueFirst_aux_nodup (l : List ℕ) :
    ∀ acc, acc.Nodup →
      (l.foldl (fun acc a => if a ∈ acc then acc else acc ++ [a]) acc).Nodup := by
  induction l with
  | nil => intro acc h; simpa using h
  | cons a l ih =>
      intro acc h
      rw [List.foldl_cons]
      apply ih
      split
      · exact h
      · next ha => simpa [List.nodup_append] using ⟨h, ha⟩

lemma nodup_uniqueFirst (l : List ℕ) : (uniqueFirst l).Nodup :=
  uniqueFirst_aux_nodup l [] List.nodup_nil

lemma length_le_of_nodup_subset {l₁ l₂ : List ℕ} (h₁ : l₁.Nodup)
    (h₂ : l₂.Nodup) (hs : ∀ x ∈ l₁, x ∈ l₂) : l₁.length ≤ l₂.length := by
  classical
  have hsub : l₁.toFinset ⊆ l₂.toFinset := by
    intro x hx
    rw [List.mem_toFinset] at hx ⊢
    exact hs x hx
  have := Finset.card_le_card hsub
  rwa [List.toFinset_card_of_nodup h₁, List.toFinset_card_of_nodup h₂] at this

lemma mem_get_subset_dts {dts : List ℕ} {a b q : ℕ} :
    q ∈ get_subset_dts dts a b ↔ q ∈ dts ∧ a ≤ q ∧ q ≤ b := by
  simp [get_subset_dts, List.mem_filter, and_assoc]

lemma mem_hourlyGrid {t0 n q : ℕ} : q ∈ hourlyGrid t0 n ↔ t0 ≤ q ∧ q < t0 + n := by
  simp only [hourlyGrid, List.mem_map, List.mem_range]
  constructor
  · rintro ⟨k, hk, rfl⟩; omega
  · intro h; exact ⟨q - t0, by omega, by omega⟩

lemma nodup_hourlyGrid (t0 n : ℕ) : (hourlyGrid t0 n).Nodup :=
  (List.nodup_range n).map (add_right_injective t0)

lemma foldl_max_init_le : ∀ (l : List ℕ) (init : ℕ), init ≤ l.foldl max init
  | [], init => le_refl init
  | b :: l, init => le_trans (le_max_left init b) (foldl_max_init_le l (max init b))

lemma le_listMaxD_aux : ∀ (l : List ℕ) (init a : ℕ), a ∈ l → a ≤ l.foldl max init
  | [], _, _, h => absurd h (List.not_mem_nil _)
  | b :: l, init, a, h => by
      rcases List.mem_cons.1 h with rfl | h
      · calc a ≤ max init a := le_max_right _ _
          _ ≤ (a :: l).foldl max init := by
              rw [List.foldl_cons]
              exact foldl_max_init_le l (max init a)
      · exact le_listMaxD_aux l (max init b) a h

lemma le_listMaxD {l : List ℕ} {a : ℕ} (h : a ∈ l) : a ≤ listMaxD l :=
  le_listMaxD_aux l 0 a h

lemma listMaxD_le_aux : ∀ (l : List ℕ) (init b : ℕ), init ≤ b →
    (∀ a ∈ l, a ≤ b) → l.foldl max init ≤ b
  | [], _, _, hinit, _ => hinit
  | a :: l, init, b, hinit, h => by
      rw [List.foldl_cons]
      exact listMaxD_le_aux l (max init a) b
        (max_le hinit (h a (List.mem_cons_self a l)))
        fun q hq => h q (List.mem_cons_of_mem a hq)

lemma listMaxD_le {l : List ℕ} {b : ℕ} (h : ∀ a ∈ l, a ≤ b) : listMaxD l ≤ b :=
  listMaxD_le_aux l 0 b (Nat.zero_le b) h

lemma listMaxD_mem_aux : ∀ (l : List ℕ) (init : ℕ), l.foldl max init = init ∨ l.foldl max init ∈ l
  | [], _ => Or.inl rfl
  | a :: l, init => by
      rw [List.foldl_cons]
      rcases listMaxD_mem_aux l (max init a) with h | h
      · rcases max_choice init a with hm | hm
        · exact Or.inl (h.trans hm)
        · exact Or.inr (by rw [h, hm]; exact List.mem_cons_self a l)
      · exact Or.inr (List.mem_cons_of_mem a h)

lemma listMaxD_mem {l : List ℕ} (h : l ≠ []) : listMaxD l ∈ l := by
  rcases listMaxD_mem_aux l 0 with h0 | hm
  · rcases l with _ | ⟨a, l⟩
    · exact absurd rfl h
    · have ha : a ≤ listMaxD (a :: l) := le_listMaxD (List.mem_cons_self a l)
      have hL : listMaxD (a :: l) = 0 := h0
      rw [hL] at ha
      have haz : a = 0 := Nat.le_zero.1 ha
      show listMaxD (a :: l) ∈ a :: l
      rw [hL, ← haz]
      exact List.mem_cons_self a l
  · exact hm

lemma sum_le_length_of_le_one {l : List ℕ} {f : ℕ → ℚ}
    (h : ∀ a ∈ l, f a ≤ 1) : (l.map f).sum ≤ (l.length : ℚ) := by
  induction l with
  | nil => simp
  | cons a l ih =>
      simp only [List.map_cons, List.sum_cons, List.length_cons]
      have h1 := h a (List.mem_cons_self a l)
      have h2 := ih fun q hq => h q (List.mem_cons_of_mem a hq)
      push_cast
      linarith

lemma all_one_of_sum_ge_length {l : List ℕ} {f : ℕ → ℚ}
    (hle : ∀ a ∈ l, f a ≤ 1) (hsum : (l.length : ℚ) ≤ (l.map f).sum) :
    ∀ a ∈ l, f a = 1 := by
  induction l with
  | nil => simp
  | cons a l ih =>
      simp only [List.map_cons, List.sum_cons, List.length_cons] at hsum
      have h1 := hle a (List.mem_cons_self a l)
      have htail : (l.map f).sum ≤ (l.length : ℚ) :=
        sum_le_length_of_le_one fun q hq => hle q (List.mem_cons_of_mem a hq)
      have ha : f a = 1 := by push_cast at hsum; linarith
      intro q hq
      rcases List.mem_cons.1 hq with rfl | hq
      · exact ha
      · exact ih (fun r hr => hle r (List.mem_cons_of_mem a hr))
          (by push_cast at hsum ⊢; linarith) q hq

lemma all_zero_of_sum_le_zero {l : List ℕ} {f : ℕ → ℚ}
    (hnn : ∀ a ∈ l, 0 ≤ f a) (hsum : (l.map f).sum ≤ 0) :
    ∀ a ∈ l, f a = 0 := by
  intro a ha
  have h1 : f a ≤ (l.map f).sum :=
    List.single_le_sum (by simpa using fun q hq => hnn q hq) _
      (List.mem_map_of_mem f ha)
  have h2 := hnn a ha
  linarith

lemma sum_map_eq_zero {l : List ℕ} {f : ℕ → ℚ}
    (h : ∀ a ∈ l, f a = 0) : (l.map f).sum = 0 :=
  List.sum_eq_zero (by simpa using fun q hq => h q hq)

lemma pyRound_zero (p : ℕ) : pyRound p 0 = 0 := by
  unfold pyRound
  show ((Int.fdiv ((0 : ℚ) * (10 : ℚ) ^ p + 1 / 2).num
      (((0 : ℚ) * (10 : ℚ) ^ p + 1 / 2).den : ℤ) : ℤ) : ℚ) / (10 : ℚ) ^ p = 0
  rw [zero_mul, zero_add]
  have h1 : ((1 : ℚ) / 2).num = 1 := by with_unfolding_all decide
  have h2 : ((1 : ℚ) / 2).den = 2 := by with_unfolding_all decide
  rw [h1, h2]
  have h3 : Int.fdiv 1 ((2 : ℕ) : ℤ) = 0 := by decide
  rw [h3]
  simp

/-! ### C10 — model construction mutates the caller's demand frame -/

/-- C10: Constructing a Model mutates the caller's demand DataFrame in
place: the derived `bus_day` and `week` columns are added to the caller's
object (here: the frame handed back by the explicit state passing), so the
input demand table is not left unchanged by model construction. -/
theorem c10_init_mutates_caller_frame (df : DemandDF) (staff : List Staff)
    (h : df.bus_day = none) :
    (modelInit df staff).2.bus_day = some (df.date_time.map busDay) ∧
    (modelInit df staff).2.week =
      some (df.date_time.map fun t => (t - listMinD df.date_time) / 24 / 7 + 1) ∧
    (modelInit df staff).2 ≠ df := by
  refine ⟨rfl, rfl, fun he => ?_⟩
  have hb := congrArg DemandDF.bus_day he
  rw [h] at hb
  simp [modelInit, DemandDF.afterInit] at hb

/-- Witness for C10 at a concrete two-slot frame. -/
theorem c10_witness :
    (⟨[0, 1], [2, 3], none, none⟩ : DemandDF).bus_day = none ∧
    (modelInit ⟨[0, 1], [2, 3], none, none⟩ []).2 ≠ ⟨[0, 1], [2, 3], none, none⟩ :=
  ⟨rfl, (c10_init_mutates_caller_frame ⟨[0, 1], [2, 3], none, none⟩ [] rfl).2.2⟩

/-! ### C8 — which start slots are fixed to zero -/

/-- The claim's forcing condition, stated from the spec's words: a
minimum-length shift starting at `dt` occupies slots
`dt .. dt + MIN_SHIFT_HOURS - 1`, and those occupied slots cross into the
next business day. -/
def specOccupiedSlotsCross (dt : ℕ) : Prop :=
  busDay dt < busDay (dt + (MIN_SHIFT_HOURS - 1))

/-- C8 counterexample: at hour 15 of a day the occupied slots 15..23 stay
inside the business day, yet the code fixes `x_start` to 0 because the end
instant `dt + MIN_SHIFT_HOURS` falls on the next date; the claimed "iff"
fails there. -/
theorem c8_counterexample : ¬ (xStartUb 15 = 0 ↔ specOccupiedSlotsCross 15) := by
  unfold specOccupiedSlotsCross
  decide

/-- C8 amended: `start[s,t]` is fixed to 0 iff the end instant
`t + MIN_SHIFT_HOURS` falls on the next calendar date, i.e. iff
`hourOf t + MIN_SHIFT_HOURS ≥ 24` (so hour-15 starts are also excluded,
although their occupied slots stay within the day); all other slots keep
the {0,1} domain. -/
theorem c8_start_forced_zero_iff (dt : ℕ) :
    xStartUb dt = if 24 ≤ hourOf dt + MIN_SHIFT_HOURS then 0 else 1 := by
  unfold xStartUb hourOf busDay MIN_SHIFT_HOURS
  have hiff : dt / 24 < (dt + 9) / 24 ↔ 24 ≤ dt % 24 + 9 := by
    constructor <;> intro h <;> omega
  by_cases h : 24 ≤ dt % 24 + 9
  · rw [if_pos (hiff.mpr h), if_pos h]
  · rw [if_neg (fun hc => h (hiff.mp hc)), if_neg h]

/-! ### C5 — overtime variables fixed to zero -/

/-- C5: `overtime[s,t]` is created with upper bound 0 — and hence equals 0
in every assignment within its bounds — whenever the staff role is in the
overtime-prohibited set or `t` lies in the first `MIN_SHIFT_HOURS` hours of
its business day. -/
theorem c5_overtime_fixed_zero (role : String) (dt : ℕ) (v : ℚ)
    (h0 : 0 ≤ v) (hub : v ≤ xOtUb role dt)
    (hc : role ∈ ROLE_OT_PROHIBITED ∨ hourOf dt < MIN_SHIFT_HOURS) :
    xOtUb role dt = 0 ∧ v = 0 := by
  have h : xOtUb role dt = 0 := by unfold xOtUb; rw [if_pos hc]
  rw [h] at hub
  exact ⟨h, le_antisymm hub h0⟩

/-- Witness for C5: the prohibited role at hour 3, value 0. -/
theorem c5_witness :
    ("Branch Manager" ∈ ROLE_OT_PROHIBITED ∨ hourOf 3 < MIN_SHIFT_HOURS) ∧
    xOtUb "Branch Manager" 3 = 0 :=
  ⟨Or.inl (by decide),
   (c5_overtime_fixed_zero "Branch Manager" 3 0 le_rfl (by decide)
     (Or.inl (by decide))).1⟩

/-! ### C2 — no DataError is ever raised -/

/-- C2 counterexample: malformed inputs pass through construction and
variable creation without any `DataError`.  The first input has timestamps
that are not hourly-spaced and a negative demand value; the second has a
well-formed grid but an empty staff table.  In both cases `buildModel`
returns `ok` (and in the first, eleven decision variables are created). -/
theorem c2_counterexample :
    (buildModel ⟨[0, 5], [3, -1], none, none⟩ [⟨"101", "Manager", 1, 2⟩]).isOk = true ∧
    (buildModel ⟨[0, 5], [3, -1], none, none⟩ [⟨"101", "Manager", 1, 2⟩]).toOption.map
      (fun p => p.2.length) = some 11 ∧
    (buildModel ⟨[0, 1], [3, 3], none, none⟩ []).isOk = true := by
  decide

/-- C2 amended: the code performs no input validation at all on the
construction-and-variable path: for every demand frame and staff table —
malformed ones included — `Model.__init__` followed by
`Model.add_variables` completes and returns the created variables, and no
`DataError` is raised. -/
theorem c2_no_validation (df : DemandDF) (staff : List Staff) :
    ∃ st vars, buildModel df staff = Except.ok (st, vars) :=
  ⟨_, _, rfl⟩

/-! ### C9 — the defensive window-length assertion never fails -/

lemma length_get_subset_le {dts : List ℕ} (h : dts.Nodup) (a b : ℕ) :
    (get_subset_dts dts a b).length ≤ b + 1 - a := by
  classical
  have hnd : (get_subset_dts dts a b).Nodup := h.filter _
  have h1 : (get_subset_dts dts a b).toFinset.card = (get_subset_dts dts a b).length :=
    List.toFinset_card_of_nodup hnd
  have h2 : (get_subset_dts dts a b).toFinset ⊆ Finset.Icc a b := by
    intro q hq
    rw [List.mem_toFinset, mem_get_subset_dts] at hq
    exact Finset.mem_Icc.2 ⟨hq.2.1, hq.2.2⟩
  have h3 := Finset.card_le_card h2
  rw [h1, Nat.card_Icc] at h3
  exact h3

/-- Every `get_subset_dts` call the source makes with a `max_length`
argument, with the `min_dt`, `max_dt` and `max_length` of that call:
the past window (line 146), rest window (line 161), minimum-shift window
(line 174), potential-overtime window (line 186), additional-rest window
(line 192, made only when the rest window is nonempty), and the decoder's
shift window (line 327). -/
def windowChecksOk (dts : List ℕ) : Prop :=
  ∀ dt ∈ dts,
    subsetAssertOk dts (max (busDayStart dt) (dt - (MAX_SHIFT_HOURS - 1))) dt
      MAX_SHIFT_HOURS = true ∧
    subsetAssertOk dts (dt + 1) (dt + (MIN_SHIFT_HOURS + MIN_REST_HOURS - 1))
      (MIN_SHIFT_HOURS + MIN_REST_HOURS - 1) = true ∧
    subsetAssertOk dts dt (dt + (MIN_SHIFT_HOURS - 1)) MIN_SHIFT_HOURS = true ∧
    subsetAssertOk dts (listMaxD (shiftDts dts dt) + 1)
      (min (busEod dt) (listMaxD (shiftDts dts dt) + (MAX_SHIFT_HOURS - MIN_SHIFT_HOURS + 1)))
      (MAX_SHIFT_HOURS - MIN_SHIFT_HOURS + 1) = true ∧
    ((restDts dts dt).length ≠ 0 →
      subsetAssertOk dts (listMaxD (restDts dts dt) + 1)
        (listMaxD (restDts dts dt) + MIN_REST_HOURS) MIN_REST_HOURS = true) ∧
    subsetAssertOk dts dt (dt + (MAX_SHIFT_HOURS - 1)) MAX_SHIFT_HOURS = true

/-- C9: on a contiguous, strictly increasing hourly demand grid, every
window subset the constraint builder and the decoder compute through
`get_subset_dts` with a `max_length` argument has length at most that
`max_length`, so the defensive assertion branch is unreachable. -/
theorem c9_window_asserts_never_fail (t0 n : ℕ) : windowChecksOk (hourlyGrid t0 n) := by
  intro dt _
  have hnd := nodup_hourlyGrid t0 n
  have key : ∀ a b L : ℕ, b + 1 - a ≤ L →
      subsetAssertOk (hourlyGrid t0 n) a b L = true := by
    intro a b L h
    unfold subsetAssertOk
    rw [decide_eq_true_eq]
    exact le_trans (length_get_subset_le hnd a b) h
  refine ⟨key _ _ _ ?_, key _ _ _ ?_, key _ _ _ ?_, key _ _ _ ?_,
    fun _ => key _ _ _ ?_, key _ _ _ ?_⟩
  · simp only [busDayStart, MAX_SHIFT_HOURS]
    omega
  · simp only [MIN_SHIFT_HOURS, MIN_REST_HOURS]
    omega
  · simp only [MIN_SHIFT_HOURS]
    omega
  · simp only [busEod, busDayStart, MAX_SHIFT_HOURS, MIN_SHIFT_HOURS]
    omega
  · simp only [MIN_REST_HOURS]
    omega
  · simp only [MAX_SHIFT_HOURS]
    omega

/-! ### C1 — result returned for non-solved statuses -/

/-- Modelled from the spec: the name of the status the solver adapter
returns, which the claim says is recorded in the metrics. -/
def specStatusName : SolveStatus → String
  | .optimal => "optimal"
  | .feasible => "feasible"
  | .infeasible => "infeasible"
  | .solverError => "error"

/-- A one-slot, one-staff model used for concrete evaluations. -/
def msTiny : ModelState :=
  { M := 1, dfDts := [0], dts := [0], demand := fun _ => 1
    staff := [⟨"101", "Manager", 1, 2⟩] }

/-- The all-zero assignment: what OR-Tools `solution_value()` reads when no
solution is stored. -/
def zeroAssign : ℕ → ℕ → ℚ := fun _ _ => 0

/-- C1 counterexample: for an Infeasible solve the metrics record the
string "feasible", not the solver's returned status. -/
theorem c1_counterexample :
    (solveDecode msTiny SolveStatus.infeasible zeroAssign zeroAssign zeroAssign).solver_status
      ≠ specStatusName SolveStatus.infeasible := by
  decide

/-- C1 amended: for a run whose status is Infeasible or Error, the decoder
returns — without raising — an empty shift list and zero WDC, WOR and total
cost (unsolved variables read as zero), but the `solver_status` field
records the string "feasible", the same value used for a Feasible solve;
the actual returned status is not recorded. -/
theorem c1_unsolved_zeroed_feasible_string (ms : ModelState) (status : SolveStatus)
    (xs x xot : ℕ → ℕ → ℚ)
    (hst : status = SolveStatus.infeasible ∨ status = SolveStatus.solverError)
    (hx : ∀ i dt, x i dt = 0) :
    solveDecode ms status xs x xot =
      { shifts := [], WDC := 0, WOR := 0, total_cost := 0, solver_status := "feasible" } := by
  have htot : ((List.range ms.M).map fun i => (ms.dts.map (x i)).sum).sum = 0 :=
    sum_map_eq_zero fun i _ => sum_map_eq_zero fun dt _ => hx i dt
  rcases hst with rfl | rfl <;>
    simp [solveDecode, htot, pyRound_zero]

/-- Witness for C1 at the concrete one-slot model. -/
theorem c1_witness :
    (SolveStatus.infeasible = SolveStatus.infeasible ∨
      SolveStatus.infeasible = SolveStatus.solverError) ∧
    (∀ i dt, zeroAssign i dt = 0) ∧
    solveDecode msTiny SolveStatus.infeasible zeroAssign zeroAssign zeroAssign =
      { shifts := [], WDC := 0, WOR := 0, total_cost := 0, solver_status := "feasible" } :=
  ⟨Or.inl rfl, fun _ _ => rfl,
   c1_unsolved_zeroed_feasible_string msTiny SolveStatus.infeasible zeroAssign zeroAssign
     zeroAssign (Or.inl rfl) (fun _ _ => rfl)⟩

/-! ### C4 — how WDC averages over slots -/

lemma sum_map_div (l : List ℕ) (f : ℕ → ℚ) (d : ℚ) :
    (l.map fun a => f a / d).sum = (l.map f).sum / d := by
  induction l with
  | nil => simp
  | cons a l ih => simp [ih, add_div]

lemma sum_map_ite_filter (l : List ℕ) (p : ℕ → Prop) [DecidablePred p] (f : ℕ → ℚ) :
    (l.map fun a => if p a then f a else 0).sum =
      ((l.filter fun a => decide (p a)).map f).sum := by
  induction l with
  | nil => simp
  | cons a l ih => by_cases hp : p a <;> simp [hp, ih]

/-- The claim's WDC, from the spec's words: the plain average of per-slot
coverage taken only over slots with nonzero demand — such slots appear in
neither the numerator nor the averaging denominator. -/
def specWDC (ms : ModelState) (x : ℕ → ℕ → ℚ) : ℚ :=
  let nz := ms.dts.filter fun dt => decide (ms.demand dt ≠ 0)
  if nz.length ≠ 0 then
    (nz.map fun dt =>
      ((List.range ms.M).map fun i => x i dt).sum / ((ms.demand dt : ℤ) : ℚ)).sum
      / (nz.length : ℚ)
  else 0

/-- A two-slot model whose second slot has zero demand. -/
def msZeroSlot : ModelState :=
  { M := 1, dfDts := [0, 1], dts := [0, 1]
    demand := fun dt => if dt = 0 then 1 else 0
    staff := [⟨"101", "Manager", 1, 2⟩] }

/-- The assignment working exactly the first slot. -/
def oneAtZero : ℕ → ℕ → ℚ := fun _ dt => if dt = 0 then 1 else 0

/-- C4 counterexample: with one staffed slot of demand 1 and one zero-demand
slot, the claimed average is 1, but the returned WDC is 1/2 — the
zero-demand slot is counted in the averaging denominator, because the
`defaultdict` entry is created for every slot the decoding loop touches. -/
theorem c4_counterexample :
    (solveDecode msZeroSlot SolveStatus.optimal zeroAssign oneAtZero zeroAssign).WDC
      ≠ specWDC msZeroSlot oneAtZero := by
  with_unfolding_all decide

/-- C4 amended: for a solved status with at least one staff member and a
nonempty horizon, WDC equals the 4-decimal rounding of the sum over
nonzero-demand slots of `(Σ_s work)/demand` divided by the number of all
slots in the horizon: zero-demand slots are excluded from the numerator but
still counted in the averaging denominator. -/
theorem c4_wdc_counts_all_slots (ms : ModelState) (status : SolveStatus)
    (xs x xot : ℕ → ℕ → ℚ)
    (hok : status = SolveStatus.optimal ∨ status = SolveStatus.feasible)
    (hM : 0 < ms.M) (hne : ms.dts ≠ []) :
    (solveDecode ms status xs x xot).WDC =
      pyRound 4 (((ms.dts.filter fun dt => decide (ms.demand dt ≠ 0)).map
          (fun dt => ((List.range ms.M).map fun i => x i dt).sum / ((ms.demand dt : ℤ) : ℚ))).sum
        / (ms.dts.length : ℚ)) := by
  have hA : ∀ dt, coverageVal ms x dt =
      if ms.demand dt ≠ 0 then
        ((List.range ms.M).map fun i => x i dt).sum / ((ms.demand dt : ℤ) : ℚ)
      else 0 := by
    intro dt
    unfold coverageVal
    by_cases hc : ms.demand dt ≠ 0
    · rw [if_pos hc]
      simp only [if_pos hc]
      exact sum_map_div _ _ _
    · rw [if_neg hc]
      simp only [if_neg hc]
      simp
  have hB : (ms.dts.map (coverageVal ms x)).sum =
      ((ms.dts.filter fun dt => decide (ms.demand dt ≠ 0)).map
        (fun dt => ((List.range ms.M).map fun i => x i dt).sum / ((ms.demand dt : ℤ) : ℚ))).sum := by
    rw [List.map_congr_left fun dt _ => hA dt]
    exact sum_map_ite_filter _ _ _
  have hok' : (status = SolveStatus.optimal ∨ status = SolveStatus.feasible) = True :=
    eq_true hok
  simp only [solveDecode, hok', true_and, if_pos hM, SolveResult.mk.injEq]
  rw [if_pos hne, hB]

/-- Witness for C4's amended statement at the concrete two-slot model. -/
theorem c4_witness :
    (SolveStatus.optimal = SolveStatus.optimal ∨
      SolveStatus.optimal = SolveStatus.feasible) ∧
    0 < msZeroSlot.M ∧ msZeroSlot.dts ≠ [] ∧
    (solveDecode msZeroSlot SolveStatus.optimal zeroAssign oneAtZero zeroAssign).WDC =
      pyRound 4 (((msZeroSlot.dts.filter fun dt => decide (msZeroSlot.demand dt ≠ 0)).map
          (fun dt => ((List.range msZeroSlot.M).map fun i => oneAtZero i dt).sum
            / ((msZeroSlot.demand dt : ℤ) : ℚ))).sum
        / (msZeroSlot.dts.length : ℚ)) :=
  ⟨Or.inl rfl, by decide, by decide,
   c4_wdc_counts_all_slots msZeroSlot SolveStatus.optimal zeroAssign oneAtZero zeroAssign
     (Or.inl rfl) (by decide) (by decide)⟩

/-! ### Membership facts about the built constraint list -/

lemma otLoop_mem_consecutive (i dt : ℕ) :
    ∀ (os rs : List ℕ) (o : ℕ), o ∈ os →
      Constr.consecutive i dt o ∈ otLoopConstrs i dt os rs
  | [], _, _, h => absurd h (List.not_mem_nil _)
  | o2 :: os, rs, o, h => by
      rcases List.mem_cons.1 h with rfl | h
      · cases rs <;> simp [otLoopConstrs]
      · cases rs with
        | nil =>
            simp only [otLoopConstrs, List.cons_append, List.nil_append, List.mem_cons]
            exact Or.inr (Or.inr (otLoop_mem_consecutive i dt os [] o h))
        | cons r rs =>
            simp only [otLoopConstrs, List.cons_append, List.nil_append, List.mem_cons]
            exact Or.inr (Or.inr (Or.inr (otLoop_mem_consecutive i dt os rs o h)))

lemma otLoop_shape (i dt : ℕ) :
    ∀ (os rs : List ℕ) (c : Constr), c ∈ otLoopConstrs i dt os rs →
      (∃ o, c = Constr.consecutive i dt o) ∨ (∃ o, c = Constr.otFlag i dt o) ∨
      (∃ o r, c = Constr.otRest i dt o r)
  | [], _, c, h => absurd h (List.not_mem_nil _)
  | o :: os, [], c, h => by
      simp only [otLoopConstrs, List.cons_append, List.nil_append, List.mem_cons] at h
      rcases h with rfl | rfl | h
      · exact Or.inl ⟨o, rfl⟩
      · exact Or.inr (Or.inl ⟨o, rfl⟩)
      · exact otLoop_shape i dt os [] c h
  | o :: os, r :: rs, c, h => by
      simp only [otLoopConstrs, List.cons_append, List.nil_append, List.mem_cons] at h
      rcases h with rfl | rfl | rfl | h
      · exact Or.inl ⟨o, rfl⟩
      · exact Or.inr (Or.inl ⟨o, rfl⟩)
      · exact Or.inr (Or.inr ⟨o, r, rfl⟩)
      · exact otLoop_shape i dt os rs c h

lemma past_mem_slotCore (dts : List ℕ) (i dt : ℕ) :
    Constr.past i dt ∈ slotConstrsCore dts i dt := by
  simp [slotConstrsCore]

lemma rest_mem_slotCore (dts : List ℕ) (i dt : ℕ) :
    Constr.rest i dt ∈ slotConstrsCore dts i dt := by
  simp [slotConstrsCore]

lemma minShift_mem_slotCore (dts : List ℕ) (i dt : ℕ) :
    Constr.minShift i dt ∈ slotConstrsCore dts i dt := by
  simp [slotConstrsCore]

lemma consecutive_mem_slotCore {dts : List ℕ} {i dt o : ℕ} (h : o ∈ otDts dts dt) :
    Constr.consecutive i dt o ∈ slotConstrsCore dts i dt := by
  unfold slotConstrsCore
  exact List.mem_append_left _
    (List.mem_append_right _ (otLoop_mem_consecutive i dt _ _ o h))

lemma slotCore_shape {dts : List ℕ} {i dt : ℕ} {c : Constr}
    (h : c ∈ slotConstrsCore dts i dt) :
    c = Constr.past i dt ∨ c = Constr.rest i dt ∨ c = Constr.minShift i dt ∨
    (∃ o, c = Constr.consecutive i dt o) ∨ (∃ o, c = Constr.otFlag i dt o) ∨
    (∃ o r, c = Constr.otRest i dt o r) ∨ c = Constr.maxPerDay i dt := by
  simp only [slotConstrsCore, List.mem_append, List.cons_append, List.nil_append,
    List.mem_cons, List.mem_singleton, List.not_mem_nil, or_false] at h
  rcases h with rfl | rfl | rfl | h | rfl
  · exact Or.inl rfl
  · exact Or.inr (Or.inl rfl)
  · exact Or.inr (Or.inr (Or.inl rfl))
  · rcases otLoop_shape i dt _ _ c h with h | h | h
    · exact Or.inr (Or.inr (Or.inr (Or.inl h)))
    · exact Or.inr (Or.inr (Or.inr (Or.inr (Or.inl h))))
    · exact Or.inr (Or.inr (Or.inr (Or.inr (Or.inr (Or.inl h)))))
  · exact Or.inr (Or.inr (Or.inr (Or.inr (Or.inr (Or.inr rfl)))))

lemma slotLoop_mem_of_core (dts : List ℕ) (M i : ℕ) (many : Bool) :
    ∀ (l : List ℕ) (ls : Option ℕ) (dt : ℕ) (c : Constr), dt ∈ l →
      c ∈ slotConstrsCore dts i dt → c ∈ slotLoop dts M i many l ls
  | [], _, _, _, h, _ => absurd h (List.not_mem_nil _)
  | dt2 :: l, ls, dt, c, h, hc => by
      simp only [slotLoop, List.mem_append]
      rcases List.mem_cons.1 h with rfl | h
      · exact Or.inl (Or.inl (Or.inl hc))
      · exact Or.inr (slotLoop_mem_of_core dts M i many l _ dt c h hc)

lemma slotLoop_shape (dts : List ℕ) (M i : ℕ) (many : Bool) :
    ∀ (l : List ℕ) (ls : Option ℕ) (c : Constr), c ∈ slotLoop dts M i many l ls →
      (∃ dt, dt ∈ l ∧ c ∈ slotConstrsCore dts i dt) ∨
      (many = true ∧ ∃ d, c = Constr.dayLink i d) ∨
      (∃ dt, c = Constr.demandCover dt)
  | [], _, c, h => absurd h (List.not_mem_nil _)
  | dt2 :: l, ls, c, h => by
      simp only [slotLoop, List.mem_append] at h
      rcases h with ((hc | hd) | hdc) | hrec
      · exact Or.inl ⟨dt2, List.mem_cons_self dt2 l, hc⟩
      · rcases hb : (many && decide (ls ≠ some (busDayStart dt2))) with _ | _
        · rw [hb] at hd
          exact absurd hd (List.not_mem_nil c)
        · rw [hb] at hd
          have hmany : many = true := by
            rw [Bool.and_eq_true] at hb
            exact hb.1
          exact Or.inr (Or.inl ⟨hmany, busDayStart dt2, List.mem_singleton.1 hd⟩)
      · by_cases hM : i = M - 1
        · rw [if_pos hM] at hdc
          exact Or.inr (Or.inr ⟨dt2, List.mem_singleton.1 hdc⟩)
        · rw [if_neg hM] at hdc
          exact absurd hdc (List.not_mem_nil c)
      · rcases slotLoop_shape dts M i many l _ c hrec with ⟨dt, hdt, hcore⟩ | h | h
        · exact Or.inl ⟨dt, List.mem_cons_of_mem dt2 hdt, hcore⟩
        · exact Or.inr (Or.inl h)
        · exact Or.inr (Or.inr h)

lemma weekly_shape {dts : List ℕ} {i : ℕ} {c : Constr}
    (h : c ∈ weeklyConstrs dts i) :
    ∃ w, c = Constr.maxPerWeek i w ∧ MAX_DAYS_PER_WEEK < (weekDaysOf dts w).length := by
  simp only [weeklyConstrs, List.mem_flatMap] at h
  obtain ⟨w, _, hc⟩ := h
  by_cases hlen : (weekDaysOf dts w).length > MAX_DAYS_PER_WEEK
  · rw [if_pos hlen] at hc
    exact ⟨w, List.mem_singleton.1 hc, hlen⟩
  · rw [if_neg hlen] at hc
    exact absurd hc (List.not_mem_nil c)

lemma mem_addConstraints_of_core {dts : List ℕ} {M i dt : ℕ} {c : Constr}
    (hi : i < M) (hdt : dt ∈ dts) (hc : c ∈ slotConstrsCore dts i dt) :
    c ∈ addConstraints dts M := by
  simp only [addConstraints, List.mem_flatMap, List.mem_range]
  exact ⟨i, hi, List.mem_append_left _
    (slotLoop_mem_of_core dts M i _ dts none dt c hdt hc)⟩

lemma addConstraints_shape {dts : List ℕ} {M : ℕ} {c : Constr}
    (h : c ∈ addConstraints dts M) :
    (∃ i dt, dt ∈ dts ∧ c ∈ slotConstrsCore dts i dt) ∨
    (MAX_DAYS_PER_WEEK < (uniqueBusDays dts).length ∧ ∃ i d, c = Constr.dayLink i d) ∨
    (∃ dt, c = Constr.demandCover dt) ∨
    (∃ i w, c = Constr.maxPerWeek i w ∧ MAX_DAYS_PER_WEEK < (weekDaysOf dts w).length) := by
  simp only [addConstraints, List.mem_flatMap, List.mem_range] at h
  obtain ⟨i, _, hc⟩ := h
  rcases List.mem_append.1 hc with hs | hw
  · rcases slotLoop_shape dts M i _ dts none c hs with ⟨dt, hdt, hcore⟩ | ⟨hmany, d, rfl⟩ | ⟨dt, rfl⟩
    · exact Or.inl ⟨i, dt, hdt, hcore⟩
    · exact Or.inr (Or.inl ⟨of_decide_eq_true hmany, i, d, rfl⟩)
    · exact Or.inr (Or.inr (Or.inl ⟨dt, rfl⟩))
  · obtain ⟨w, rfl, hlen⟩ := weekly_shape hw
    exact Or.inr (Or.inr (Or.inr ⟨i, w, rfl, hlen⟩))

lemma weekDaysOf_subset_uniqueBusDays (dts : List ℕ) (w : ℕ) :
    ∀ d ∈ weekDaysOf dts w, d ∈ uniqueBusDays dts := by
  intro d hd
  rw [weekDaysOf, mem_uniqueFirst] at hd
  obtain ⟨t, ht, rfl⟩ := List.mem_map.1 hd
  rw [uniqueBusDays, mem_uniqueFirst]
  exact List.mem_map.2 ⟨t, (List.mem_filter.1 ht).1, rfl⟩

/-! ### C7 — dayWorked variables versus their constraints -/

/-- A one-business-day model (24 hourly slots, one staff member). -/
def msOneDay : ModelState :=
  (modelInit ⟨hourlyGrid 0 24, List.replicate 24 3, none, none⟩
    [⟨"101", "Manager", 1, 2⟩]).1

/-- C7 counterexample: on a one-business-day horizon (at most
`MAX_DAYS_PER_WEEK` days) the `x_day` variable is still created — variable
creation at line 122 is unconditional, only the constraints are guarded. -/
theorem c7_counterexample :
    (uniqueBusDays msOneDay.dts).length ≤ MAX_DAYS_PER_WEEK ∧
    (⟨.xDay 0 0, 0, 1⟩ : VarDecl) ∈ addVariables msOneDay := by
  with_unfolding_all decide

/-- C7 amended: for a horizon of at most `MAX_DAYS_PER_WEEK` business
days, neither the day-worked linkage constraints nor the weekly day-off
constraints are added — but the `dayWorked` variables are still created,
for every staff index and every business day of the horizon. -/
theorem c7_constraints_conditional_variables_not (ms : ModelState) (i d : ℕ)
    (hi : i < ms.M) (hd : d ∈ uniqueBusDays ms.dfDts)
    (hshort : (uniqueBusDays ms.dts).length ≤ MAX_DAYS_PER_WEEK) :
    (⟨.xDay i d, 0, 1⟩ : VarDecl) ∈ addVariables ms ∧
    (∀ i2 d2, Constr.dayLink i2 d2 ∉ addConstraints ms.dts ms.M) ∧
    (∀ i2 w, Constr.maxPerWeek i2 w ∉ addConstraints ms.dts ms.M) := by
  refine ⟨?_, ?_, ?_⟩
  · simp only [addVariables, List.mem_flatMap, List.mem_range]
    exact ⟨i, hi, List.mem_append_right _ (List.mem_map.2 ⟨d, hd, rfl⟩)⟩
  · intro i2 d2 hmem
    rcases addConstraints_shape hmem with ⟨i3, dt, _, hcore⟩ | ⟨hmany, _⟩ | ⟨dt, heq⟩ |
      ⟨i3, w, heq, _⟩
    · rcases slotCore_shape hcore with h | h | h | ⟨o, h⟩ | ⟨o, h⟩ | ⟨o, r, h⟩ | h <;>
        simp at h
    · omega
    · simp at heq
    · simp at heq
  · intro i2 w hmem
    rcases addConstraints_shape hmem with ⟨i3, dt, _, hcore⟩ | ⟨_, i3, d3, heq⟩ | ⟨dt, heq⟩ |
      ⟨i3, w2, heq, hlen⟩
    · rcases slotCore_shape hcore with h | h | h | ⟨o, h⟩ | ⟨o, h⟩ | ⟨o, r, h⟩ | h <;>
        simp at h
    · simp at heq
    · simp at heq
    · have hsub := weekDaysOf_subset_uniqueBusDays ms.dts w2
      have hnd1 : (weekDaysOf ms.dts w2).Nodup := nodup_uniqueFirst _
      have hnd2 : (uniqueBusDays ms.dts).Nodup := nodup_uniqueFirst _
      have hle : (weekDaysOf ms.dts w2).length ≤ (uniqueBusDays ms.dts).length :=
        length_le_of_nodup_subset hnd1 hnd2 hsub
      omega

/-- Witness for C7's amended statement at the one-day model. -/
theorem c7_witness :
    0 < msOneDay.M ∧ 0 ∈ uniqueBusDays msOneDay.dfDts ∧
    (uniqueBusDays msOneDay.dts).length ≤ MAX_DAYS_PER_WEEK ∧
    (⟨.xDay 0 0, 0, 1⟩ : VarDecl) ∈ addVariables msOneDay :=
  ⟨by decide, by with_unfolding_all decide, by with_unfolding_all decide,
   (c7_constraints_conditional_variables_not msOneDay 0 0 (by decide)
     (by with_unfolding_all decide) (by with_unfolding_all decide)).1⟩

/-! ### C6 — minimum spacing between shift starts -/

/-- C6: in every assignment with nonnegative start values that satisfies
all built constraints, no two shift starts of the same staff member lie
closer than `MIN_SHIFT_HOURS + MIN_REST_HOURS` hours: the rest constraint
at the earlier start forces every start variable in the following
`MIN_SHIFT_HOURS + MIN_REST_HOURS - 1` hours to zero. -/
theorem c6_rest_spacing (dts : List ℕ) (M : ℕ) (demand : ℕ → ℤ)
    (xs x xot xday : ℕ → ℕ → ℚ) (y1 y2 : ℕ → ℚ) (i : ℕ)
    (hi : i < M)
    (hnn : ∀ p ∈ dts, 0 ≤ xs i p)
    (hc : ∀ c ∈ addConstraints dts M, c.holds dts M demand xs x xot xday y1 y2)
    (t t2 : ℕ) (ht : t ∈ dts) (ht2 : t2 ∈ dts) (hlt : t < t2)
    (hs : xs i t = 1) (hs2 : xs i t2 = 1) :
    t + (MIN_SHIFT_HOURS + MIN_REST_HOURS) ≤ t2 := by
  by_contra hcon
  push_neg at hcon
  have hmem : Constr.rest i t ∈ addConstraints dts M :=
    mem_addConstraints_of_core hi ht (rest_mem_slotCore dts i t)
  have hr := hc _ hmem
  simp only [Constr.holds] at hr
  rw [hs] at hr
  have ht2r : t2 ∈ restDts dts t := by
    rw [restDts, mem_get_subset_dts]
    refine ⟨ht2, by omega, ?_⟩
    simp only [MIN_SHIFT_HOURS, MIN_REST_HOURS] at hcon ⊢
    omega
  have hnnr : ∀ q ∈ (restDts dts t).map (xs i), 0 ≤ q := by
    intro q hq
    obtain ⟨p, hp, rfl⟩ := List.mem_map.1 hq
    exact hnn p ((mem_get_subset_dts.1 hp).1)
  have hle : xs i t2 ≤ ((restDts dts t).map (xs i)).sum :=
    List.single_le_sum hnnr _ (List.mem_map_of_mem _ ht2r)
  rw [hs2] at hle
  have hz : ((restDts dts t).length : ℚ) * (1 - 1) = 0 := by ring
  rw [hz] at hr
  linarith

/-- The witness assignment: the same staff member starts (and works) at
hours 0 and 24 of a two-slot grid. -/
def twoStarts : ℕ → ℕ → ℚ := fun _ p => if p = 0 ∨ p = 24 then 1 else 0

/-- Witness for C6: on the two-slot grid [0, 24] the two-start assignment
satisfies every built constraint and the starts are 24 ≥ 13 hours apart. -/
theorem c6_witness :
    (∀ p ∈ [0, 24], (0 : ℚ) ≤ twoStarts 0 p) ∧
    (∀ c ∈ addConstraints [0, 24] 1,
      c.holds [0, 24] 1 (fun _ => 0) twoStarts twoStarts zeroAssign zeroAssign
        (fun _ => 0) (fun _ => 0)) ∧
    0 + (MIN_SHIFT_HOURS + MIN_REST_HOURS) ≤ 24 :=
  ⟨by with_unfolding_all decide, by with_unfolding_all decide,
   c6_rest_spacing [0, 24] 1 (fun _ => 0) twoStarts twoStarts zeroAssign zeroAssign
     (fun _ => 0) (fun _ => 0) 0 Nat.one_pos (by with_unfolding_all decide)
     (by with_unfolding_all decide) 0 24 (by decide) (by decide) (by decide)
     (by with_unfolding_all decide) (by with_unfolding_all decide)⟩

/-! ### C3 — the decoded shift end is the last contiguously worked slot -/

/-- The claim's notion of shift end: `e` is the last slot of the decode
window `[t, t + MAX_SHIFT_HOURS - 1]` such that every grid slot from `t`
through `e` is worked — a worked slot separated from `t` by a non-worked
slot is not such an `e`. -/
def isLastContiguousWorkedSlot (dts : List ℕ) (xw : ℕ → ℚ) (t e : ℕ) : Prop :=
  e ∈ get_subset_dts dts t (t + (MAX_SHIFT_HOURS - 1)) ∧
  (∀ r ∈ dts, t ≤ r → r ≤ e → xw r = 1) ∧
  ∀ q ∈ get_subset_dts dts t (t + (MAX_SHIFT_HOURS - 1)),
    (∀ r ∈ dts, t ≤ r → r ≤ q → xw r = 1) → q ≤ e

/-- C3: on an hourly grid, for every binary assignment satisfying the
built constraints and every decoded shift start, the decoder's end
timestamp is the last slot contiguous with the start for which the work
variable is 1, plus one hour: the minimum-shift constraint forces the
first `MIN_SHIFT_HOURS` slots, the rest constraint keeps the rest of the
decode window free of other starts (so no work can appear beyond the
business day), and the consecutiveness constraints forbid gaps, so the
maximum worked slot of the window is exactly the last contiguous one. -/
theorem c3_decoded_end_is_last_contiguous (t0 n M : ℕ) (demand : ℕ → ℤ)
    (xs x xot xday : ℕ → ℕ → ℚ) (y1 y2 : ℕ → ℚ) (i : ℕ) (hi : i < M)
    (hxs01 : ∀ p ∈ hourlyGrid t0 n, xs i p = 0 ∨ xs i p = 1)
    (hx01 : ∀ p ∈ hourlyGrid t0 n, x i p = 0 ∨ x i p = 1)
    (hc : ∀ c ∈ addConstraints (hourlyGrid t0 n) M,
      c.holds (hourlyGrid t0 n) M demand xs x xot xday y1 y2)
    (t : ℕ) (ht : t ∈ hourlyGrid t0 n) (hst : xs i t = 1) :
    isLastContiguousWorkedSlot (hourlyGrid t0 n) (x i) t
      (decodeEnd (hourlyGrid t0 n) (x i) t - 1) := by
  set G := hourlyGrid t0 n with hG
  have hGmem : ∀ q : ℕ, q ∈ G ↔ t0 ≤ q ∧ q < t0 + n := fun q => mem_hourlyGrid
  have htG := (hGmem t).1 ht
  have hxle : ∀ p ∈ G, x i p ≤ 1 := by
    intro p hp
    rcases hx01 p hp with h | h <;> simp [h]
  have hxge : ∀ p ∈ G, 0 ≤ x i p := by
    intro p hp
    rcases hx01 p hp with h | h <;> simp [h]
  have hxsge : ∀ p ∈ G, 0 ≤ xs i p := by
    intro p hp
    rcases hxs01 p hp with h | h <;> simp [h]
  -- the minimum-shift constraint at t forces work on [t, t+8] ∩ G
  have hmin := hc _ (mem_addConstraints_of_core hi ht (minShift_mem_slotCore G i t))
  simp only [Constr.holds] at hmin
  rw [hst, mul_one] at hmin
  have hwork9 : ∀ r ∈ shiftDts G t, x i r = 1 := by
    refine all_one_of_sum_ge_length ?_ hmin
    intro a ha
    exact hxle a (mem_get_subset_dts.1 ha).1
  have hworkBase : ∀ r ∈ G, t ≤ r → r ≤ t + 8 → x i r = 1 := by
    intro r hr h1 h2
    apply hwork9
    rw [shiftDts, mem_get_subset_dts]
    exact ⟨hr, h1, by simp only [MIN_SHIFT_HOURS]; omega⟩
  -- the rest constraint at t forces all starts on (t, t+12] ∩ G to zero
  have hrestc := hc _ (mem_addConstraints_of_core hi ht (rest_mem_slotCore G i t))
  simp only [Constr.holds] at hrestc
  rw [hst] at hrestc
  have hz : ((restDts G t).length : ℚ) * (1 - 1) = 0 := by ring
  rw [hz] at hrestc
  have hrest0 : ∀ p ∈ restDts G t, xs i p = 0 := by
    refine all_zero_of_sum_le_zero ?_ hrestc
    intro a ha
    exact hxsge a (mem_get_subset_dts.1 ha).1
  have hrest0w : ∀ p ∈ G, t + 1 ≤ p → p ≤ t + 12 → xs i p = 0 := by
    intro p hp h1 h2
    apply hrest0
    rw [restDts, mem_get_subset_dts]
    exact ⟨hp, h1, by simp only [MIN_SHIFT_HOURS, MIN_REST_HOURS]; omega⟩
  -- no work is possible on window slots beyond the business day of t
  have hbeyond : ∀ p ∈ G, t + 9 ≤ p → p ≤ t + 11 → busEod t < p → x i p = 0 := by
    intro p hp h9 h11 hbe
    have hpastc := hc _ (mem_addConstraints_of_core hi hp (past_mem_slotCore G i p))
    simp only [Constr.holds] at hpastc
    have hzero : ∀ u ∈ pastDts G p, xs i u = 0 := by
      intro u hu
      rw [pastDts, mem_get_subset_dts] at hu
      obtain ⟨huG, hu1, hu2⟩ := hu
      have hb : busDayStart p ≤ u := le_trans (le_max_left _ _) hu1
      refine hrest0w u huG ?_ (by omega)
      simp only [busEod, busDayStart] at hbe hb ⊢
      omega
    rw [sum_map_eq_zero hzero] at hpastc
    have := hxge p hp
    linarith
  -- the consecutiveness constraint walks work downward inside the window
  have hdescend : ∀ p ∈ G, t + 9 ≤ p → p ≤ t + 11 → p ≤ busEod t →
      x i p = 1 → x i (p - 1) = 1 := by
    intro p hp h9 h11 hbe hxp
    have ht8 : t + 8 ∈ G := by
      rw [hGmem] at hp ⊢
      omega
    have hm : listMaxD (shiftDts G t) = t + 8 := by
      apply le_antisymm
      · apply listMaxD_le
        intro a ha
        rw [shiftDts, mem_get_subset_dts] at ha
        simp only [MIN_SHIFT_HOURS] at ha
        omega
      · apply le_listMaxD
        rw [shiftDts, mem_get_subset_dts]
        exact ⟨ht8, by omega, by simp only [MIN_SHIFT_HOURS]; omega⟩
    have hpot : p ∈ otDts G t := by
      rw [otDts, mem_get_subset_dts, hm]
      refine ⟨hp, by omega, le_min hbe ?_⟩
      simp only [MAX_SHIFT_HOURS, MIN_SHIFT_HOURS]
      omega
    have hcons := hc _ (mem_addConstraints_of_core hi ht (consecutive_mem_slotCore hpot))
    simp only [Constr.holds] at hcons
    rw [hst, hxp] at hcons
    have hp1 : p - 1 ∈ G := by
      rw [hGmem] at hp ⊢
      omega
    rcases hx01 (p - 1) hp1 with h | h
    · rw [h] at hcons
      norm_num at hcons
    · exact h
  -- every worked slot of the decode window is contiguously worked from t
  have hall : ∀ q ∈ get_subset_dts G t (t + (MAX_SHIFT_HOURS - 1)), x i q = 1 →
      ∀ r ∈ G, t ≤ r → r ≤ q → x i r = 1 := by
    intro q hqW hxq
    rw [mem_get_subset_dts] at hqW
    obtain ⟨hqG, htq, hq11⟩ := hqW
    simp only [MAX_SHIFT_HOURS] at hq11
    by_cases hq8 : q ≤ t + 8
    · intro r hr h1 h2
      exact hworkBase r hr h1 (by omega)
    · push_neg at hq8
      have hqbe : q ≤ busEod t := by
        by_contra hq
        push_neg at hq
        have h0 := hbeyond q hqG (by omega) (by omega) hq
        rw [h0] at hxq
        norm_num at hxq
      have haux : ∀ d r, r ∈ G → t ≤ r → r + d = q → x i r = 1 := by
        intro d
        induction d with
        | zero =>
            intro r hr h1 h2
            have hrq : r = q := by omega
            rw [hrq]
            exact hxq
        | succ d ih =>
            intro r hr h1 h2
            have hr1G : r + 1 ∈ G := by
              rw [hGmem] at hr hqG ⊢
              omega
            have hxr1 : x i (r + 1) = 1 := ih (r + 1) hr1G (by omega) (by omega)
            by_cases hr8 : r ≤ t + 8
            · exact hworkBase r hr h1 hr8
            · push_neg at hr8
              have hd := hdescend (r + 1) hr1G (by omega) (by omega)
                (le_trans (by omega : r + 1 ≤ q) hqbe) hxr1
              simpa using hd
      intro r hr h1 h2
      exact haux (q - r) r hr h1 (by omega)
  -- assembling: the decoder takes the maximum worked slot of the window
  have htW : t ∈ get_subset_dts G t (t + (MAX_SHIFT_HOURS - 1)) := by
    rw [mem_get_subset_dts]
    exact ⟨ht, le_rfl, by simp only [MAX_SHIFT_HOURS]; omega⟩
  have hxt : x i t = 1 := hworkBase t ht le_rfl (by omega)
  have htS : t ∈ (get_subset_dts G t (t + (MAX_SHIFT_HOURS - 1))).filter
      (fun q => decide (x i q = 1)) := by
    rw [List.mem_filter]
    exact ⟨htW, decide_eq_true hxt⟩
  have hSne : (get_subset_dts G t (t + (MAX_SHIFT_HOURS - 1))).filter
      (fun q => decide (x i q = 1)) ≠ [] := List.ne_nil_of_mem htS
  have heS := listMaxD_mem hSne
  have heW : listMaxD ((get_subset_dts G t (t + (MAX_SHIFT_HOURS - 1))).filter
      (fun q => decide (x i q = 1))) ∈ get_subset_dts G t (t + (MAX_SHIFT_HOURS - 1)) :=
    (List.mem_filter.1 heS).1
  have hxe : x i (listMaxD ((get_subset_dts G t (t + (MAX_SHIFT_HOURS - 1))).filter
      (fun q => decide (x i q = 1)))) = 1 :=
    of_decide_eq_true (List.mem_filter.1 heS).2
  have hEnd : decodeEnd G (x i) t - 1 =
      listMaxD ((get_subset_dts G t (t + (MAX_SHIFT_HOURS - 1))).filter
        (fun q => decide (x i q = 1))) := by
    rw [decodeEnd, Nat.add_sub_cancel]
  rw [hEnd]
  refine ⟨heW, ?_, ?_⟩
  · intro r hr h1 h2
    exact hall _ heW hxe r hr h1 h2
  · intro q hq hq1
    have hxq : x i q = 1 :=
      hq1 q (mem_get_subset_dts.1 hq).1 (mem_get_subset_dts.1 hq).2.1 le_rfl
    apply le_listMaxD
    rw [List.mem_filter]
    exact ⟨hq, decide_eq_true hxq⟩

/-- The witness assignment for C3: one staff member starting at hour 9
of a nine-slot grid and working the whole minimum shift. -/
def startNine : ℕ → ℕ → ℚ := fun _ p => if p = 9 then 1 else 0

/-- The witness work values for C3: hours 9 through 17 are worked. -/
def workNine : ℕ → ℕ → ℚ := fun _ p => if 9 ≤ p ∧ p ≤ 17 then 1 else 0

/-- Witness for C3 at the concrete nine-slot grid. -/
theorem c3_witness :
    (∀ p ∈ hourlyGrid 9 9, startNine 0 p = 0 ∨ startNine 0 p = 1) ∧
    (∀ p ∈ hourlyGrid 9 9, workNine 0 p = 0 ∨ workNine 0 p = 1) ∧
    (∀ c ∈ addConstraints (hourlyGrid 9 9) 1,
      c.holds (hourlyGrid 9 9) 1 (fun _ => 0) startNine workNine zeroAssign zeroAssign
        (fun _ => 0) (fun _ => 0)) ∧
    isLastContiguousWorkedSlot (hourlyGrid 9 9) (workNine 0) 9
      (decodeEnd (hourlyGrid 9 9) (workNine 0) 9 - 1) :=
  ⟨by with_unfolding_all decide, by with_unfolding_all decide,
   by with_unfolding_all decide,
   c3_decoded_end_is_last_contiguous 9 9 1 (fun _ => 0) startNine workNine zeroAssign
     zeroAssign (fun _ => 0) (fun _ => 0) 0 Nat.one_pos (by with_unfolding_all decide)
     (by with_unfolding_all decide) (by with_unfolding_all decide) 9 (by decide)
     (by with_unfolding_all decide)⟩

end ShiftSched
